import Mathlib

/-!
Verification of the rock-paper-scissor client (`src/message.rs`,
`src/utils.rs`, `src/main.rs`).

The embedding models:
* the `Message` / `Action` data types (`message.rs`);
* the wire codec actually used by the code, namely `serde_json::to_string`
  (externally tagged JSON) followed by `String::as_bytes` (UTF-8), and the
  inverse pipeline `String::from_utf8` / `serde_json::from_str` used by
  `recv_msg` (`utils.rs`);
* the framed transport `send_msg` / `send_exact` / `recv_msg` / `recv_exact`
  (`utils.rs`), with the underlying socket abstracted as the sequence of
  per-call transfer counts it reports;
* the user-input loop `my_turn` and the winner table of `main` (`main.rs`).

Strings are modelled as lists of Unicode scalar values (`List Char`, matching
Rust `String`), and wire bytes as `List Nat` with values below 256.
-/

namespace RPS

/-- `Action` from `message.rs`: the move made by a player.
Declared with `#[repr(u8)]` discriminants Rock = 0, Paper = 1, Scissor = 2. -/
inductive Action where
  | Rock
  | Paper
  | Scissor
deriving DecidableEq

/-- The in-memory `#[repr(u8)]` discriminant of an `Action` (`Rock = 0`,
`Paper = 1`, `Scissor = 2` in `message.rs`). -/
def Action.discriminant : Action → Nat
  | .Rock => 0
  | .Paper => 1
  | .Scissor => 2

/-- `Message` from `message.rs`: the message exchanged between the players.
Rust `String` fields are modelled as lists of Unicode scalar values. -/
inductive Message where
  | Hello (name : List Char)
  | Leave (name : List Char)
  | Act (action : Action)
deriving DecidableEq

/-- Lowercase hex digit for a nibble, as emitted by `serde_json` in
`\u00XX` escapes. -/
def hexDigit (k : Nat) : Char :=
  if k < 10 then Char.ofNat (48 + k) else Char.ofNat (87 + k)

/-- JSON string escaping as performed by `serde_json`: `"` and `\` get a
backslash escape, the control characters BS, TAB, LF, FF, CR use their
short escapes, all other control characters below 0x20 use `\u00XX`,
and every other character (ASCII or not) is emitted verbatim. -/
def escapeChar (c : Char) : List Char :=
  if c = '"' then ['\\', '"']
  else if c = '\\' then ['\\', '\\']
  else if c.toNat = 8 then ['\\', 'b']
  else if c.toNat = 9 then ['\\', 't']
  else if c.toNat = 10 then ['\\', 'n']
  else if c.toNat = 12 then ['\\', 'f']
  else if c.toNat = 13 then ['\\', 'r']
  else if c.toNat < 32 then ['\\', 'u', '0', '0', hexDigit (c.toNat / 16), hexDigit (c.toNat % 16)]
  else [c]

/-- The escaped body of a JSON string (content between the quotes). -/
def escapeString (s : List Char) : List Char :=
  (s.map escapeChar).flatten

/-- A JSON string literal: opening quote, escaped content, closing quote,
followed by a continuation `k` (kept as an explicit continuation so the
encoder output is literally in the shape the decoder consumes). -/
def jsonString (s : List Char) (k : List Char) : List Char :=
  '"' :: (escapeString s ++ '"' :: k)

/-- `serde_json::to_string` on `Message` (used in `send_msg`): the derived
`Serialize` produces the externally-tagged form
`\x7b"Hello":\x7b"name":"..."\x7d\x7d`, `\x7b"Leave":\x7b"name":"..."\x7d\x7d`
and `\x7b"Act":"Rock"\x7d` (unit variants of `Action` serialize as their
variant-name string; the `#[repr(u8)]` ordinals do not appear on the wire). -/
def serde_json_to_string : Message → List Char
  | .Hello name =>
      '\x7b' :: '"' :: 'H' :: 'e' :: 'l' :: 'l' :: 'o' :: '"' :: ':' ::
      '\x7b' :: '"' :: 'n' :: 'a' :: 'm' :: 'e' :: '"' :: ':' ::
      jsonString name ['\x7d', '\x7d']
  | .Leave name =>
      '\x7b' :: '"' :: 'L' :: 'e' :: 'a' :: 'v' :: 'e' :: '"' :: ':' ::
      '\x7b' :: '"' :: 'n' :: 'a' :: 'm' :: 'e' :: '"' :: ':' ::
      jsonString name ['\x7d', '\x7d']
  | .Act .Rock =>
      '\x7b' :: '"' :: 'A' :: 'c' :: 't' :: '"' :: ':' ::
      '"' :: 'R' :: 'o' :: 'c' :: 'k' :: '"' :: ['\x7d']
  | .Act .Paper =>
      '\x7b' :: '"' :: 'A' :: 'c' :: 't' :: '"' :: ':' ::
      '"' :: 'P' :: 'a' :: 'p' :: 'e' :: 'r' :: '"' :: ['\x7d']
  | .Act .Scissor =>
      '\x7b' :: '"' :: 'A' :: 'c' :: 't' :: '"' :: ':' ::
      '"' :: 'S' :: 'c' :: 'i' :: 's' :: 's' :: 'o' :: 'r' :: '"' :: ['\x7d']

/-- UTF-8 encoding of a single Unicode scalar value (given as its code
point), as produced by Rust `str::as_bytes`. -/
def utf8EncodeChar (n : Nat) : List Nat :=
  if n < 128 then [n]
  else if n < 2048 then [192 + n / 64, 128 + n % 64]
  else if n < 65536 then [224 + n / 4096, 128 + n / 64 % 64, 128 + n % 64]
  else [240 + n / 262144, 128 + n / 4096 % 64, 128 + n / 64 % 64, 128 + n % 64]

/-- `str::as_bytes`: the UTF-8 bytes of a string. -/
def str_as_bytes (s : List Char) : List Nat :=
  (s.map fun c => utf8EncodeChar c.toNat).flatten

/-- The encoded JSON body bytes of a message, exactly as computed inside
`send_msg` (`serde_json::to_string(&msg)` then `json_text.as_bytes()`). -/
def bodyBytes (m : Message) : List Nat :=
  str_as_bytes (serde_json_to_string m)

/-- Length in bytes of the encoded JSON body of a message
(`json_bytes.len()` in `send_msg`). -/
def bodyLen (m : Message) : Nat :=
  (bodyBytes m).length

/-- `u32::to_le_bytes`: the four little-endian bytes of `n % 2^32`. -/
def toLE32 (n : Nat) : List Nat :=
  [n % 256, n / 256 % 256, n / 65536 % 256, n / 16777216 % 256]

/-- `u32::from_le_bytes` on a 4-byte buffer (`recv_msg` reads exactly four
bytes before calling it; on any other shape we return 0, which is never
reached by the model). -/
def fromLE32 : List Nat → Nat
  | [b0, b1, b2, b3] => b0 + 256 * b1 + 65536 * b2 + 16777216 * b3
  | _ => 0

/-- Continuation-byte handling of UTF-8 decoding: given a lead byte
`b ≥ 0xC2` and the following bytes, read the continuation bytes of one
multi-byte sequence and return the decoded scalar value and the remaining
bytes.  Overlong forms, surrogate code points and values above 0x10FFFF
are rejected, exactly as Rust `String::from_utf8` does. -/
def utf8DecodeCont (b : Nat) (bs : List Nat) : Option (Nat × List Nat) :=
  if b < 224 then
    match bs with
    | b1 :: bs1 =>
      if 128 ≤ b1 ∧ b1 < 192 then some ((b - 192) * 64 + (b1 - 128), bs1) else none
    | [] => none
  else if b < 240 then
    match bs with
    | b1 :: b2 :: bs2 =>
      if (128 ≤ b1 ∧ b1 < 192) ∧ (128 ≤ b2 ∧ b2 < 192) then
        let n := (b - 224) * 4096 + (b1 - 128) * 64 + (b2 - 128)
        if n < 2048 then none
        else if 55296 ≤ n ∧ n < 57344 then none
        else some (n, bs2)
      else none
    | _ => none
  else if b < 245 then
    match bs with
    | b1 :: b2 :: b3 :: bs3 =>
      if (128 ≤ b1 ∧ b1 < 192) ∧ (128 ≤ b2 ∧ b2 < 192) ∧ (128 ≤ b3 ∧ b3 < 192) then
        let n := (b - 240) * 262144 + (b1 - 128) * 4096 + (b2 - 128) * 64 + (b3 - 128)
        if n < 65536 then none
        else if 1114112 ≤ n then none
        else some (n, bs3)
      else none
    | _ => none
  else none

/-- The decoding loop of `String::from_utf8`: decode one character per
step (ASCII bytes directly, lead bytes `0xC2..0xF4` through
`utf8DecodeCont`, everything else an error).  The `fuel` argument only
bounds the recursion depth; one unit is spent per decoded character, so
any fuel of at least the byte length is enough. -/
def string_from_utf8_go : Nat → List Nat → Option (List Char)
  | _, [] => some []
  | 0, _ :: _ => none
  | fuel + 1, b :: bs =>
    if b < 128 then
      (string_from_utf8_go fuel bs).map (fun t => Char.ofNat b :: t)
    else if b < 194 then none
    else
      match utf8DecodeCont b bs with
      | some (n, rest) => (string_from_utf8_go fuel rest).map (fun t => Char.ofNat n :: t)
      | none => none

/-- `String::from_utf8` (used in `recv_msg`): strict UTF-8 decoding of a
byte sequence, rejecting stray continuation bytes, overlong forms,
surrogate code points and values above 0x10FFFF. -/
def string_from_utf8 (l : List Nat) : Option (List Char) :=
  string_from_utf8_go l.length l

/-- Numeric value of a hex digit in a `\uXXXX` escape. -/
def hexVal (c : Char) : Option Nat :=
  if 48 ≤ c.toNat ∧ c.toNat ≤ 57 then some (c.toNat - 48)
  else if 97 ≤ c.toNat ∧ c.toNat ≤ 102 then some (c.toNat - 87)
  else if 65 ≤ c.toNat ∧ c.toNat ≤ 70 then some (c.toNat - 55)
  else none

/-- The character denoted by a one-letter escape `\e` (the short escapes
accepted by `serde_json`); `none` when `e` is not a legal escape letter
(`\u` is handled separately in `parseStringBody`). -/
def escShort (e : Char) : Option Char :=
  if e = '"' then some '"'
  else if e = '\\' then some '\\'
  else if e = '/' then some '/'
  else if e = 'b' then some '\x08'
  else if e = 'f' then some '\x0c'
  else if e = 'n' then some '\n'
  else if e = 'r' then some '\r'
  else if e = 't' then some '\t'
  else none

/-- The code point denoted by the four hex digits of a `\uXXXX` escape. -/
def hex4 (h1 h2 h3 h4 : Char) : Option Nat :=
  (hexVal h1).bind fun a1 =>
    (hexVal h2).bind fun a2 =>
      (hexVal h3).bind fun a3 =>
        (hexVal h4).map fun a4 => a1 * 4096 + a2 * 256 + a3 * 16 + a4

/-- JSON string-body parsing as performed by `serde_json`: characters up to
the closing quote, with the standard short escapes, `\uXXXX` escapes, and
rejection of raw control characters.  Returns the decoded content and the
input following the closing quote.  One simplification relative to
`serde_json`: a high/low surrogate **pair** of `\u` escapes (which
`serde_json` combines into one supplementary character, and which the
encoder never emits) is not combined here; every surrogate `\u` escape is
rejected, as `serde_json` itself does for lone surrogates. -/
def parseStringBody : List Char → Option (List Char × List Char)
  | [] => none
  | c :: rest =>
    if c = '"' then some ([], rest)
    else if c = '\\' then
      match rest with
      | [] => none
      | e :: rest2 =>
        if e = 'u' then
          match rest2 with
          | h1 :: h2 :: h3 :: h4 :: rest3 =>
            match hex4 h1 h2 h3 h4 with
            | some n =>
              if 55296 ≤ n ∧ n < 57344 then none
              else (parseStringBody rest3).map (fun p => (Char.ofNat n :: p.1, p.2))
            | none => none
          | _ => none
        else
          match escShort e with
          | some d => (parseStringBody rest2).map (fun p => (d :: p.1, p.2))
          | none => none
    else if c.toNat < 32 then none
    else (parseStringBody rest).map (fun p => (c :: p.1, p.2))

/-- JSON insignificant whitespace (accepted by `serde_json` between tokens). -/
def isJsonWs (c : Char) : Bool :=
  c = ' ' || c = '\t' || c = '\n' || c = '\r'

/-- Skip insignificant whitespace. -/
def skipWs (s : List Char) : List Char :=
  s.dropWhile isJsonWs

/-- Expect a single punctuation character, after optional whitespace. -/
def expectChar (ch : Char) (s : List Char) : Option (List Char) :=
  match skipWs s with
  | c :: rest => if c = ch then some rest else none
  | [] => none

/-- Parse a JSON string token, after optional whitespace. -/
def parseJString (s : List Char) : Option (List Char × List Char) :=
  match skipWs s with
  | c :: rest => if c = '"' then parseStringBody rest else none
  | [] => none

/-- Parse the inner struct-variant object `\x7b"name": <string> \x7d`, as the
derived `Deserialize` for `Hello`/`Leave` does (a single mandatory `name`
field; a missing field, a different key, or extra members are errors). -/
def parseNameObj (s : List Char) : Option (List Char × List Char) := do
  let r1 ← expectChar '\x7b' s
  let (key, r2) ← parseJString r1
  if key = ['n', 'a', 'm', 'e'] then
    let r3 ← expectChar ':' r2
    let (v, r4) ← parseJString r3
    let r5 ← expectChar '\x7d' r4
    some (v, r5)
  else none

/-- The derived `Deserialize` for `Action`: a unit-variant enum accepts
exactly its variant-name strings; any other string — and any non-string
JSON value, in particular a bare ordinal — is an error. -/
def actionOfName (s : List Char) : Option Action :=
  if s = ['R', 'o', 'c', 'k'] then some .Rock
  else if s = ['P', 'a', 'p', 'e', 'r'] then some .Paper
  else if s = ['S', 'c', 'i', 's', 's', 'o', 'r'] then some .Scissor
  else none

/-- `serde_json::from_str` on `Message` (used in `recv_msg`): parse the
externally-tagged JSON form — an object with a single variant-name key whose
value is the variant's content — and reject trailing non-whitespace input.
Unknown tags, ordinals in place of variant names, malformed structure and
missing fields are all errors. -/
def serde_json_from_str (s : List Char) : Option Message := do
  let r1 ← expectChar '\x7b' s
  let (tag, r2) ← parseJString r1
  let r3 ← expectChar ':' r2
  let (m, r4) ←
    if tag = ['H', 'e', 'l', 'l', 'o'] then
      (parseNameObj r3).map (fun p => (Message.Hello p.1, p.2))
    else if tag = ['L', 'e', 'a', 'v', 'e'] then
      (parseNameObj r3).map (fun p => (Message.Leave p.1, p.2))
    else if tag = ['A', 'c', 't'] then
      (parseJString r3).bind (fun p => (actionOfName p.1).map (fun a => (Message.Act a, p.2)))
    else none
  let r5 ← expectChar '\x7d' r4
  if skipWs r5 = [] then some m else none

/-- The deserialization pipeline inside `recv_msg`: `String::from_utf8`
followed by `serde_json::from_str`. -/
def decode_body (bytes : List Nat) : Option Message :=
  (string_from_utf8 bytes).bind serde_json_from_str

/-- Outcome of `send_exact`.  The underlying socket is abstracted as the
list of byte counts its successive `send` calls report.  `ok sent counts`
returns the bytes that went on the wire and the unconsumed counts (available
to later calls on the same socket); `connectionAborted` is the
`io::ErrorKind::ConnectionAborted` error raised on a zero count; `pending`
means the count oracle was exhausted while the loop still had bytes to send
(the real loop would keep waiting on the socket). -/
inductive SendResult where
  | ok (sent : List Nat) (counts : List Nat)
  | connectionAborted
  | pending
deriving DecidableEq

/-- `send_exact` from `utils.rs`: loop until the remaining sub-slice `rest`
is empty; each iteration sends `rest` and the socket reports `count` bytes
actually sent (capped at `rest.len()`, as `UdpSocket::send` guarantees);
a zero count raises `ConnectionAborted`; otherwise `rest` advances by
`count` bytes. -/
def send_exact : List Nat → List Nat → SendResult
  | counts, [] => .ok [] counts
  | [], _ :: _ => .pending
  | c :: cs, b :: bs =>
    if c = 0 then .connectionAborted
    else
      let k := min c (b :: bs).length
      match send_exact cs ((b :: bs).drop k) with
      | .ok sent cs' => .ok ((b :: bs).take k ++ sent) cs'
      | r => r

/-- `send_msg` from `utils.rs`: serialize the message with
`serde_json::to_string`, reinterpret as bytes, truncate the byte length with
`len as u32`, send the 4 little-endian length bytes with `send_exact`, then
send the JSON bytes with `send_exact`.  Returns the full wire image on
success. -/
def send_msg (counts : List Nat) (m : Message) : SendResult :=
  let json_bytes := bodyBytes m
  let len_bytes := toLE32 (json_bytes.length % 2 ^ 32)
  match send_exact counts len_bytes with
  | .ok s1 cs =>
    match send_exact cs json_bytes with
    | .ok s2 cs' => .ok (s1 ++ s2) cs'
    | r => r
  | r => r

/-- The bytes `send_msg` puts on the wire when every transfer succeeds:
the `len as u32` little-endian length followed by the JSON body bytes. -/
def send_msg_wire (m : Message) : List Nat :=
  toLE32 (bodyLen m % 2 ^ 32) ++ bodyBytes m

/-- Outcome of `recv_exact`.  `ok bytes counts wire` returns the bytes that
filled the buffer, the unconsumed counts and the unconsumed wire suffix;
`unexpectedEof` is the `io::ErrorKind::UnexpectedEof` error raised on a zero
count; `pending` means the count oracle ran out while the buffer was not yet
full. -/
inductive RecvResult where
  | ok (bytes : List Nat) (counts : List Nat) (wire : List Nat)
  | unexpectedEof
  | pending
deriving DecidableEq

/-- `recv_exact` from `utils.rs`: loop until the not-yet-filled tail of the
buffer (of length `need`) is empty; each iteration the socket reports
`count` received bytes (capped at the buffer tail length, as
`UdpSocket::recv` guarantees) which are taken in order from the wire
stream; a zero count raises `UnexpectedEof`; otherwise the tail advances by
`count` bytes. -/
def recv_exact : List Nat → List Nat → Nat → RecvResult
  | counts, wire, 0 => .ok [] counts wire
  | [], _, _ + 1 => .pending
  | c :: cs, wire, need + 1 =>
    if c = 0 then .unexpectedEof
    else
      let k := min c (need + 1)
      match recv_exact cs (wire.drop k) (need + 1 - k) with
      | .ok got cs' w' => .ok (wire.take k ++ got) cs' w'
      | r => r

/-- Result of `recv_msg`.  `panicked` models the `.unwrap()` calls on
`String::from_utf8` and `serde_json::from_str`: on a malformed body the
function aborts the process instead of returning an error value. -/
inductive RecvMsgResult where
  | ok (m : Message)
  | unexpectedEof
  | pending
  | panicked
deriving DecidableEq

/-- `recv_msg` from `utils.rs`, driven by a transfer-count oracle: fill a
4-byte buffer with `recv_exact`, interpret it with `u32::from_le_bytes`,
fill a `len`-byte buffer with `recv_exact`, then run
`String::from_utf8(json_bytes).unwrap()` and
`serde_json::from_str(&json_text).unwrap()`.  Returns the result together
with the unconsumed wire suffix. -/
def recv_msg (counts : List Nat) (wire : List Nat) : RecvMsgResult × List Nat :=
  match recv_exact counts wire 4 with
  | .ok len_bytes cs w =>
    let len := fromLE32 len_bytes
    match recv_exact cs w len with
    | .ok json_bytes _ w' =>
      match string_from_utf8 json_bytes with
      | none => (.panicked, w')
      | some json_text =>
        match serde_json_from_str json_text with
        | none => (.panicked, w')
        | some m => (.ok m, w')
    | .unexpectedEof => (.unexpectedEof, w)
    | .pending => (.pending, w)
  | .unexpectedEof => (.unexpectedEof, wire)
  | .pending => (.pending, wire)

/-- `recv_msg` when every transfer delivers the whole requested buffer:
read 4 bytes, interpret them as the little-endian body length, read that
many body bytes, then decode with the unwrapping pipeline.  `pending` when
the wire does not hold enough bytes yet. -/
def recv_msg_whole (wire : List Nat) : RecvMsgResult × List Nat :=
  if wire.length < 4 then (.pending, wire)
  else
    let len := fromLE32 (wire.take 4)
    let rest := wire.drop 4
    if rest.length < len then (.pending, wire)
    else
      match string_from_utf8 (rest.take len) with
      | none => (.panicked, rest.drop len)
      | some json_text =>
        match serde_json_from_str json_text with
        | none => (.panicked, rest.drop len)
        | some m => (.ok m, rest.drop len)

/-- What `my_turn` (`main.rs`) produces, when the terminal input is
abstracted as the list of lines the user enters (end of file after the
last one): the returned `Option<Action>`, the messages sent on the socket,
and the diagnostic lines printed for unrecognized commands. -/
structure MyTurnOut where
  result : Option Action
  sent : List Message
  printed : List String
deriving DecidableEq

/-- `my_turn` from `main.rs`: loop over input lines; `"p"`/`"s"`/`"r"`
break the loop with the corresponding action, which is then sent as an
`Act` message with `send_msg` and returned as `Some(action)`; `"q"` returns
`Ok(None)` immediately, sending nothing; any other line prints
`Command not understood` and re-prompts; end of input returns `Ok(None)`. -/
def my_turn : List String → MyTurnOut
  | [] => ⟨none, [], []⟩
  | line :: rest =>
    if line = "p" then ⟨some .Paper, [.Act .Paper], []⟩
    else if line = "s" then ⟨some .Scissor, [.Act .Scissor], []⟩
    else if line = "r" then ⟨some .Rock, [.Act .Rock], []⟩
    else if line = "q" then ⟨none, [], []⟩
    else
      let o := my_turn rest
      ⟨o.result, o.sent, "Command not understood" :: o.printed⟩

/-! ### Codec round-trip: JSON string escaping -/

theorem psb_nil : parseStringBody [] = none := rfl

theorem psb_close (r : List Char) : parseStringBody ('"' :: r) = some ([], r) := by
  rw [parseStringBody.eq_def]
  simp only [Char.reduceEq, reduceIte]

theorem psb_esc (e d : Char) (he : escShort e = some d) (hne : ¬(e = 'u')) (r : List Char) :
    parseStringBody ('\\' :: e :: r) = (parseStringBody r).map (fun p => (d :: p.1, p.2)) := by
  rw [parseStringBody.eq_def]
  simp only [Char.reduceEq, reduceIte, hne, he]

theorem psb_u (h1 h2 h3 h4 : Char) (n : Nat) (hh : hex4 h1 h2 h3 h4 = some n)
    (hs : ¬(55296 ≤ n ∧ n < 57344)) (r : List Char) :
    parseStringBody ('\\' :: 'u' :: h1 :: h2 :: h3 :: h4 :: r) =
      (parseStringBody r).map (fun p => (Char.ofNat n :: p.1, p.2)) := by
  rw [parseStringBody.eq_def]
  simp only [Char.reduceEq, reduceIte, hh, hs]

theorem psb_raw (c : Char) (hq : ¬(c = '"')) (hb : ¬(c = '\\')) (hctl : ¬(c.toNat < 32))
    (r : List Char) :
    parseStringBody (c :: r) = (parseStringBody r).map (fun p => (c :: p.1, p.2)) := by
  rw [parseStringBody.eq_def]
  simp only [Char.reduceEq, hq, hb, hctl, reduceIte]

theorem hexVal_hexDigit : ∀ k : Nat, k < 16 → hexVal (hexDigit k) = some k := by
  decide

theorem escapeString_nil : escapeString [] = [] := rfl

theorem escapeString_cons (c : Char) (s : List Char) :
    escapeString (c :: s) = escapeChar c ++ escapeString s := by
  simp [escapeString]

theorem escChar_raw (c : Char) (hq : ¬(c = '"')) (hb : ¬(c = '\\')) (hctl : ¬(c.toNat < 32)) :
    escapeChar c = [c] := by
  have h8 : ¬(c.toNat = 8) := by omega
  have h9 : ¬(c.toNat = 9) := by omega
  have h10 : ¬(c.toNat = 10) := by omega
  have h12 : ¬(c.toNat = 12) := by omega
  have h13 : ¬(c.toNat = 13) := by omega
  simp only [escapeChar, hq, hb, h8, h9, h10, h12, h13, hctl, reduceIte]

theorem escChar_ctl (c : Char) (h8 : ¬(c.toNat = 8)) (h9 : ¬(c.toNat = 9))
    (h10 : ¬(c.toNat = 10)) (h12 : ¬(c.toNat = 12)) (h13 : ¬(c.toNat = 13))
    (hctl : c.toNat < 32) :
    escapeChar c = ['\\', 'u', '0', '0', hexDigit (c.toNat / 16), hexDigit (c.toNat % 16)] := by
  have hq : ¬(c = '"') := by
    intro h
    rw [h] at hctl
    exact absurd hctl (by decide)
  have hb : ¬(c = '\\') := by
    intro h
    rw [h] at hctl
    exact absurd hctl (by decide)
  simp only [escapeChar, hq, hb, h8, h9, h10, h12, h13, hctl, reduceIte]

theorem char_eq_of_toNat (c : Char) (n : Nat) (h : c.toNat = n) : c = Char.ofNat n := by
  rw [← h, Char.ofNat_toNat]

theorem psb_escapeChar (c : Char) (r : List Char) :
    parseStringBody (escapeChar c ++ r) = (parseStringBody r).map (fun p => (c :: p.1, p.2)) := by
  by_cases hq : c = '"'
  · subst hq
    rw [show escapeChar '"' ++ r = '\\' :: '"' :: r from rfl]
    rw [psb_esc '"' '"' rfl (by decide)]
  by_cases hb : c = '\\'
  · subst hb
    rw [show escapeChar '\\' ++ r = '\\' :: '\\' :: r from rfl]
    rw [psb_esc '\\' '\\' rfl (by decide)]
  by_cases h8 : c.toNat = 8
  · have hc : c = '\x08' := (char_eq_of_toNat c 8 h8).trans (by decide : Char.ofNat 8 = '\x08')
    subst hc
    rw [show escapeChar '\x08' ++ r = '\\' :: 'b' :: r from rfl]
    rw [psb_esc 'b' '\x08' rfl (by decide)]
  by_cases h9 : c.toNat = 9
  · have hc : c = '\t' := (char_eq_of_toNat c 9 h9).trans (by decide : Char.ofNat 9 = '\t')
    subst hc
    rw [show escapeChar '\t' ++ r = '\\' :: 't' :: r from rfl]
    rw [psb_esc 't' '\t' rfl (by decide)]
  by_cases h10 : c.toNat = 10
  · have hc : c = '\n' := (char_eq_of_toNat c 10 h10).trans (by decide : Char.ofNat 10 = '\n')
    subst hc
    rw [show escapeChar '\n' ++ r = '\\' :: 'n' :: r from rfl]
    rw [psb_esc 'n' '\n' rfl (by decide)]
  by_cases h12 : c.toNat = 12
  · have hc : c = '\x0c' := (char_eq_of_toNat c 12 h12).trans (by decide : Char.ofNat 12 = '\x0c')
    subst hc
    rw [show escapeChar '\x0c' ++ r = '\\' :: 'f' :: r from rfl]
    rw [psb_esc 'f' '\x0c' rfl (by decide)]
  by_cases h13 : c.toNat = 13
  · have hc : c = '\r' := (char_eq_of_toNat c 13 h13).trans (by decide : Char.ofNat 13 = '\r')
    subst hc
    rw [show escapeChar '\r' ++ r = '\\' :: 'r' :: r from rfl]
    rw [psb_esc 'r' '\r' rfl (by decide)]
  by_cases hctl : c.toNat < 32
  · rw [escChar_ctl c h8 h9 h10 h12 h13 hctl]
    rw [show ('\\' :: 'u' :: '0' :: '0' :: hexDigit (c.toNat / 16) :: [hexDigit (c.toNat % 16)]) ++ r =
      '\\' :: 'u' :: '0' :: '0' :: hexDigit (c.toNat / 16) :: hexDigit (c.toNat % 16) :: r from rfl]
    have hh : hex4 '0' '0' (hexDigit (c.toNat / 16)) (hexDigit (c.toNat % 16)) = some c.toNat := by
      have hd1 : hexVal (hexDigit (c.toNat / 16)) = some (c.toNat / 16) :=
        hexVal_hexDigit _ (by omega)
      have hd2 : hexVal (hexDigit (c.toNat % 16)) = some (c.toNat % 16) :=
        hexVal_hexDigit _ (by omega)
      simp only [hex4, hd1, hd2]
      simp only [show hexVal '0' = some 0 from rfl, Option.some_bind, Option.map_some']
      congr 1
      omega
    rw [psb_u _ _ _ _ c.toNat hh (by omega), Char.ofNat_toNat]
  · rw [escChar_raw c hq hb hctl, List.singleton_append, psb_raw c hq hb hctl]

theorem parseStringBody_escape (s : List Char) (rest : List Char) :
    parseStringBody (escapeString s ++ '"' :: rest) = some (s, rest) := by
  induction s with
  | nil => rw [escapeString_nil, List.nil_append, psb_close]
  | cons c s ih =>
    rw [escapeString_cons, List.append_assoc, psb_escapeChar, ih]
    rfl

/-! ### Codec round-trip: JSON structure -/

theorem psb_hello (r : List Char) :
    parseStringBody ('H' :: 'e' :: 'l' :: 'l' :: 'o' :: '"' :: r) =
      some (['H', 'e', 'l', 'l', 'o'], r) := by
  rw [psb_raw 'H' (by decide) (by decide) (by decide),
    psb_raw 'e' (by decide) (by decide) (by decide),
    psb_raw 'l' (by decide) (by decide) (by decide),
    psb_raw 'l' (by decide) (by decide) (by decide),
    psb_raw 'o' (by decide) (by decide) (by decide),
    psb_close]
  rfl

theorem psb_leave (r : List Char) :
    parseStringBody ('L' :: 'e' :: 'a' :: 'v' :: 'e' :: '"' :: r) =
      some (['L', 'e', 'a', 'v', 'e'], r) := by
  rw [psb_raw 'L' (by decide) (by decide) (by decide),
    psb_raw 'e' (by decide) (by decide) (by decide),
    psb_raw 'a' (by decide) (by decide) (by decide),
    psb_raw 'v' (by decide) (by decide) (by decide),
    psb_raw 'e' (by decide) (by decide) (by decide),
    psb_close]
  rfl

theorem psb_name (r : List Char) :
    parseStringBody ('n' :: 'a' :: 'm' :: 'e' :: '"' :: r) =
      some (['n', 'a', 'm', 'e'], r) := by
  rw [psb_raw 'n' (by decide) (by decide) (by decide),
    psb_raw 'a' (by decide) (by decide) (by decide),
    psb_raw 'm' (by decide) (by decide) (by decide),
    psb_raw 'e' (by decide) (by decide) (by decide),
    psb_close]
  rfl

theorem expectChar_brace (l : List Char) : expectChar '\x7b' ('\x7b' :: l) = some l := by
  simp [expectChar, skipWs, List.dropWhile_cons, isJsonWs]

theorem expectChar_cbrace (l : List Char) : expectChar '\x7d' ('\x7d' :: l) = some l := by
  simp [expectChar, skipWs, List.dropWhile_cons, isJsonWs]

theorem expectChar_colon (l : List Char) : expectChar ':' (':' :: l) = some l := by
  simp [expectChar, skipWs, List.dropWhile_cons, isJsonWs]

theorem parseJString_cons_quote (l : List Char) : parseJString ('"' :: l) = parseStringBody l := by
  simp [parseJString, skipWs, List.dropWhile_cons, isJsonWs]

theorem skipWs_nil : skipWs [] = [] := rfl

theorem from_str_to_string (m : Message) :
    serde_json_from_str (serde_json_to_string m) = some m := by
  cases m with
  | Hello name =>
    simp only [serde_json_to_string, jsonString, serde_json_from_str, parseNameObj,
      expectChar_brace, expectChar_cbrace, expectChar_colon, parseJString_cons_quote,
      psb_hello, psb_name, parseStringBody_escape, Option.bind_eq_bind, Option.some_bind,
      Option.map_some', reduceIte, skipWs_nil]
  | Leave name =>
    simp only [serde_json_to_string, jsonString, serde_json_from_str, parseNameObj,
      expectChar_brace, expectChar_cbrace, expectChar_colon, parseJString_cons_quote,
      psb_leave, psb_name, parseStringBody_escape, Option.bind_eq_bind, Option.some_bind,
      Option.map_some', reduceIte, skipWs_nil]
    rw [if_neg (by decide)]
  | Act a => cases a <;> decide

/-! ### Codec round-trip: UTF-8 -/

theorem char_valid (c : Char) :
    c.toNat < 55296 ∨ (57343 < c.toNat ∧ c.toNat < 1114112) := c.valid

theorem go_encodeChar (c : Char) (bs : List Nat) (fuel : Nat) :
    string_from_utf8_go (fuel + 1) (utf8EncodeChar c.toNat ++ bs) =
      (string_from_utf8_go fuel bs).map (fun t => c :: t) := by
  have hv := char_valid c
  by_cases h1 : c.toNat < 128
  · rw [show utf8EncodeChar c.toNat = [c.toNat] from by rw [utf8EncodeChar, if_pos h1]]
    rw [List.singleton_append]
    simp only [string_from_utf8_go, h1, reduceIte, Char.ofNat_toNat]
  · by_cases h2 : c.toNat < 2048
    · rw [show utf8EncodeChar c.toNat = [192 + c.toNat / 64, 128 + c.toNat % 64] from by
        rw [utf8EncodeChar, if_neg h1, if_pos h2]]
      rw [show ([192 + c.toNat / 64, 128 + c.toNat % 64] : List Nat) ++ bs =
        (192 + c.toNat / 64) :: (128 + c.toNat % 64) :: bs from rfl]
      have hcont : utf8DecodeCont (192 + c.toNat / 64) ((128 + c.toNat % 64) :: bs) =
          some (c.toNat, bs) := by
        have hA : 192 + c.toNat / 64 < 224 := by omega
        have hB : 128 ≤ 128 + c.toNat % 64 ∧ 128 + c.toNat % 64 < 192 := by omega
        have hE : (192 + c.toNat / 64 - 192) * 64 + (128 + c.toNat % 64 - 128) = c.toNat := by
          omega
        simp only [utf8DecodeCont, hA, hB, hE, reduceIte, and_true, true_and]
      have hA : ¬(192 + c.toNat / 64 < 128) := by omega
      have hB : ¬(192 + c.toNat / 64 < 194) := by omega
      simp only [string_from_utf8_go, hA, hB, reduceIte, hcont, Char.ofNat_toNat]
    · by_cases h3 : c.toNat < 65536
      · rw [show utf8EncodeChar c.toNat =
          [224 + c.toNat / 4096, 128 + c.toNat / 64 % 64, 128 + c.toNat % 64] from by
          rw [utf8EncodeChar, if_neg h1, if_neg h2, if_pos h3]]
        rw [show ([224 + c.toNat / 4096, 128 + c.toNat / 64 % 64, 128 + c.toNat % 64] : List Nat)
          ++ bs = (224 + c.toNat / 4096) :: (128 + c.toNat / 64 % 64) ::
            (128 + c.toNat % 64) :: bs from rfl]
        have hcont : utf8DecodeCont (224 + c.toNat / 4096)
            ((128 + c.toNat / 64 % 64) :: (128 + c.toNat % 64) :: bs) = some (c.toNat, bs) := by
          have hA : ¬(224 + c.toNat / 4096 < 224) := by omega
          have hB : 224 + c.toNat / 4096 < 240 := by omega
          have hC : (128 ≤ 128 + c.toNat / 64 % 64 ∧ 128 + c.toNat / 64 % 64 < 192) ∧
              (128 ≤ 128 + c.toNat % 64 ∧ 128 + c.toNat % 64 < 192) := by omega
          have hE : (224 + c.toNat / 4096 - 224) * 4096 + (128 + c.toNat / 64 % 64 - 128) * 64 +
              (128 + c.toNat % 64 - 128) = c.toNat := by omega
          simp only [utf8DecodeCont, hA, hB, hC, reduceIte, hE]
          have hG : ¬(c.toNat < 2048) := h2
          have hH : ¬(55296 ≤ c.toNat ∧ c.toNat < 57344) := by omega
          simp [hG, hH]
        have hA : ¬(224 + c.toNat / 4096 < 128) := by omega
        have hB : ¬(224 + c.toNat / 4096 < 194) := by omega
        simp only [string_from_utf8_go, hA, hB, reduceIte, hcont, Char.ofNat_toNat]
      · rw [show utf8EncodeChar c.toNat =
          [240 + c.toNat / 262144, 128 + c.toNat / 4096 % 64, 128 + c.toNat / 64 % 64,
            128 + c.toNat % 64] from by
          rw [utf8EncodeChar, if_neg h1, if_neg h2, if_neg h3]]
        rw [show ([240 + c.toNat / 262144, 128 + c.toNat / 4096 % 64, 128 + c.toNat / 64 % 64,
            128 + c.toNat % 64] : List Nat) ++ bs = (240 + c.toNat / 262144) ::
            (128 + c.toNat / 4096 % 64) :: (128 + c.toNat / 64 % 64) ::
            (128 + c.toNat % 64) :: bs from rfl]
        have hcont : utf8DecodeCont (240 + c.toNat / 262144)
            ((128 + c.toNat / 4096 % 64) :: (128 + c.toNat / 64 % 64) ::
              (128 + c.toNat % 64) :: bs) = some (c.toNat, bs) := by
          have hA : ¬(240 + c.toNat / 262144 < 224) := by omega
          have hB : ¬(240 + c.toNat / 262144 < 240) := by omega
          have hB2 : 240 + c.toNat / 262144 < 245 := by omega
          have hC : (128 ≤ 128 + c.toNat / 4096 % 64 ∧ 128 + c.toNat / 4096 % 64 < 192) ∧
              (128 ≤ 128 + c.toNat / 64 % 64 ∧ 128 + c.toNat / 64 % 64 < 192) ∧
              (128 ≤ 128 + c.toNat % 64 ∧ 128 + c.toNat % 64 < 192) := by omega
          have hE : (240 + c.toNat / 262144 - 240) * 262144 +
              (128 + c.toNat / 4096 % 64 - 128) * 4096 + (128 + c.toNat / 64 % 64 - 128) * 64 +
              (128 + c.toNat % 64 - 128) = c.toNat := by omega
          simp only [utf8DecodeCont, hA, hB, hB2, hC, reduceIte, hE]
          have hG : ¬(c.toNat < 65536) := h3
          have hH : ¬(1114112 ≤ c.toNat) := by omega
          simp [hG, hH]
        have hA : ¬(240 + c.toNat / 262144 < 128) := by omega
        have hB : ¬(240 + c.toNat / 262144 < 194) := by omega
        simp only [string_from_utf8_go, hA, hB, reduceIte, hcont, Char.ofNat_toNat]

theorem str_as_bytes_nil : str_as_bytes [] = [] := rfl

theorem str_as_bytes_cons (c : Char) (s : List Char) :
    str_as_bytes (c :: s) = utf8EncodeChar c.toNat ++ str_as_bytes s := by
  simp [str_as_bytes]

theorem str_as_bytes_append (s t : List Char) :
    str_as_bytes (s ++ t) = str_as_bytes s ++ str_as_bytes t := by
  simp [str_as_bytes]

theorem go_nil (fuel : Nat) : string_from_utf8_go fuel [] = some [] := by
  cases fuel <;> rfl

theorem go_str_as_bytes (s : List Char) :
    ∀ fuel : Nat, s.length ≤ fuel → string_from_utf8_go fuel (str_as_bytes s) = some s := by
  induction s with
  | nil => intro fuel _; rw [str_as_bytes_nil, go_nil]
  | cons c s ih =>
    intro fuel h
    obtain ⟨f, rfl⟩ : ∃ f, fuel = f + 1 := ⟨fuel - 1, by simp at h; omega⟩
    rw [str_as_bytes_cons, go_encodeChar, ih f (by simp at h; omega)]
    rfl

theorem utf8EncodeChar_length_pos (n : Nat) : 1 ≤ (utf8EncodeChar n).length := by
  simp only [utf8EncodeChar]
  split
  · simp
  split
  · simp
  split
  · simp
  · simp

theorem length_le_str_as_bytes (s : List Char) : s.length ≤ (str_as_bytes s).length := by
  induction s with
  | nil => simp [str_as_bytes_nil]
  | cons c s ih =>
    rw [str_as_bytes_cons, List.length_append, List.length_cons]
    have := utf8EncodeChar_length_pos c.toNat
    omega

theorem utf8_roundtrip (s : List Char) : string_from_utf8 (str_as_bytes s) = some s :=
  go_str_as_bytes s _ (length_le_str_as_bytes s)

/-- Codec round-trip: the deserialization pipeline of `recv_msg` inverts
the serialization pipeline of `send_msg` on every message. -/
theorem decode_encode (m : Message) : decode_body (bodyBytes m) = some m := by
  rw [decode_body, bodyBytes, utf8_roundtrip, Option.some_bind, from_str_to_string]

/-! ### Transport-layer lemmas -/

theorem take_add_eq {α : Type} : ∀ (m : Nat) (l : List α) (n : Nat),
    l.take (m + n) = l.take m ++ (l.drop m).take n
  | 0, l, n => by simp
  | m + 1, [], n => by simp
  | m + 1, a :: l, n => by
    rw [show m + 1 + n = (m + n) + 1 from by omega]
    simp only [List.take_succ_cons, List.drop_succ_cons, List.cons_append]
    rw [take_add_eq m l n]

theorem send_exact_nil (counts : List Nat) : send_exact counts [] = .ok [] counts := by
  cases counts <;> rfl

theorem send_exact_cons_ok (c : Nat) (cs : List Nat) (b : Nat) (bs : List Nat)
    (sent cs' : List Nat) (hc : ¬(c = 0))
    (h : send_exact cs ((b :: bs).drop (min c (b :: bs).length)) = .ok sent cs') :
    send_exact (c :: cs) (b :: bs) =
      .ok ((b :: bs).take (min c (b :: bs).length) ++ sent) cs' := by
  simp only [send_exact, hc, reduceIte, h]

theorem send_exact_cons_err (c : Nat) (cs : List Nat) (b : Nat) (bs : List Nat)
    (hc : ¬(c = 0))
    (h : send_exact cs ((b :: bs).drop (min c (b :: bs).length)) = .connectionAborted) :
    send_exact (c :: cs) (b :: bs) = .connectionAborted := by
  simp only [send_exact, hc, reduceIte, h]

theorem send_exact_zero (cs : List Nat) (buf : List Nat) (h : buf ≠ []) :
    send_exact (0 :: cs) buf = .connectionAborted := by
  cases buf with
  | nil => exact absurd rfl h
  | cons b bs => simp [send_exact]

theorem send_exact_ones (buf : List Nat) : ∀ n : Nat, buf.length ≤ n →
    send_exact (List.replicate n 1) buf = .ok buf (List.replicate (n - buf.length) 1) := by
  induction buf with
  | nil => intro n _; rw [send_exact_nil]; simp
  | cons b bs ih =>
    intro n hn
    obtain ⟨m, rfl⟩ : ∃ m, n = m + 1 := ⟨n - 1, by simp at hn; omega⟩
    rw [List.replicate_succ]
    have hlen : bs.length ≤ m := by simp at hn; omega
    have hmin : min 1 (b :: bs).length = 1 := by simp
    have hrec : send_exact (List.replicate m 1) ((b :: bs).drop (min 1 (b :: bs).length)) =
        .ok bs (List.replicate (m - bs.length) 1) := by
      rw [hmin]
      simpa using ih m hlen
    rw [send_exact_cons_ok 1 _ b bs bs _ (by decide) hrec, hmin]
    simp

theorem send_exact_pos : ∀ (counts buf : List Nat), (∀ x ∈ counts, x ≠ 0) →
    buf.length ≤ counts.length →
    ∃ j, j ≤ buf.length ∧ send_exact counts buf = .ok buf (counts.drop j) := by
  intro counts
  induction counts with
  | nil =>
    intro buf _ hlen
    have hlen0 : buf.length = 0 := by simpa using hlen
    have : buf = [] := List.length_eq_zero.mp hlen0
    subst this
    exact ⟨0, by omega, send_exact_nil []⟩
  | cons c cs ih =>
    intro buf h0 hlen
    cases buf with
    | nil => exact ⟨0, by omega, send_exact_nil _⟩
    | cons b bs =>
      have hc : ¬(c = 0) := h0 c (List.mem_cons_self c cs)
      have hk1 : 1 ≤ min c (b :: bs).length := by
        have : 1 ≤ c := by omega
        simp [Nat.le_min]
        omega
      have hdroplen : ((b :: bs).drop (min c (b :: bs).length)).length ≤ cs.length := by
        simp only [List.length_drop, List.length_cons]
        simp only [List.length_cons] at hlen
        omega
      obtain ⟨j, hj, heq⟩ := ih _ (fun x hx => h0 x (List.mem_cons_of_mem c hx)) hdroplen
      refine ⟨j + 1, ?_, ?_⟩
      · have : ((b :: bs).drop (min c (b :: bs).length)).length =
          (b :: bs).length - min c (b :: bs).length := by simp
        omega
      · rw [send_exact_cons_ok c cs b bs _ _ hc heq, List.take_append_drop]
        rfl

theorem recv_exact_need_zero (counts wire : List Nat) :
    recv_exact counts wire 0 = .ok [] counts wire := by
  cases counts <;> rfl

theorem recv_exact_cons_ok (c : Nat) (cs : List Nat) (wire : List Nat) (need : Nat)
    (got cs' w' : List Nat) (hc : ¬(c = 0))
    (h : recv_exact cs (wire.drop (min c (need + 1))) (need + 1 - min c (need + 1)) =
      .ok got cs' w') :
    recv_exact (c :: cs) wire (need + 1) =
      .ok (wire.take (min c (need + 1)) ++ got) cs' w' := by
  simp only [recv_exact, hc, reduceIte, h]

theorem recv_exact_cons_err (c : Nat) (cs : List Nat) (wire : List Nat) (need : Nat)
    (hc : ¬(c = 0))
    (h : recv_exact cs (wire.drop (min c (need + 1))) (need + 1 - min c (need + 1)) =
      .unexpectedEof) :
    recv_exact (c :: cs) wire (need + 1) = .unexpectedEof := by
  simp only [recv_exact, hc, reduceIte, h]

theorem recv_exact_zero (cs : List Nat) (wire : List Nat) (need : Nat) (h : need ≠ 0) :
    recv_exact (0 :: cs) wire need = .unexpectedEof := by
  obtain ⟨k, rfl⟩ : ∃ k, need = k + 1 := ⟨need - 1, by omega⟩
  simp [recv_exact]

theorem recv_exact_ones : ∀ (need : Nat) (n : Nat) (wire : List Nat), need ≤ n →
    recv_exact (List.replicate n 1) wire need =
      .ok (wire.take need) (List.replicate (n - need) 1) (wire.drop need) := by
  intro need
  induction need with
  | zero => intro n wire _; rw [recv_exact_need_zero]; simp
  | succ need ih =>
    intro n wire hn
    obtain ⟨m, rfl⟩ : ∃ m, n = m + 1 := ⟨n - 1, by omega⟩
    rw [List.replicate_succ]
    have hmin : min 1 (need + 1) = 1 := by omega
    have hrec : recv_exact (List.replicate m 1) (wire.drop (min 1 (need + 1)))
        (need + 1 - min 1 (need + 1)) =
        .ok ((wire.drop 1).take need) (List.replicate (m - need) 1) ((wire.drop 1).drop need) := by
      rw [hmin]
      simpa using ih m (wire.drop 1) (by omega)
    rw [recv_exact_cons_ok 1 _ wire need _ _ _ (by decide) hrec, hmin]
    rw [show wire.take 1 ++ (wire.drop 1).take need = wire.take (1 + need) from
      (take_add_eq 1 wire need).symm]
    rw [List.drop_drop]
    have h1 : 1 + need = need + 1 := by omega
    have h2 : m + 1 - (need + 1) = m - need := by omega
    rw [h1, h2]

theorem recv_exact_pos : ∀ (counts : List Nat) (need : Nat) (wire : List Nat),
    (∀ x ∈ counts, x ≠ 0) → need ≤ counts.length →
    ∃ j, j ≤ need ∧ recv_exact counts wire need =
      .ok (wire.take need) (counts.drop j) (wire.drop need) := by
  intro counts
  induction counts with
  | nil =>
    intro need wire _ hlen
    have : need = 0 := by simpa using hlen
    subst this
    exact ⟨0, by omega, by rw [recv_exact_need_zero]; simp⟩
  | cons c cs ih =>
    intro need wire h0 hlen
    cases need with
    | zero => exact ⟨0, by omega, by rw [recv_exact_need_zero]; simp⟩
    | succ need =>
      have hc : ¬(c = 0) := h0 c (List.mem_cons_self c cs)
      have hk1 : 1 ≤ min c (need + 1) := by omega
      have hk2 : min c (need + 1) ≤ need + 1 := by omega
      have hrest : need + 1 - min c (need + 1) ≤ cs.length := by
        simp only [List.length_cons] at hlen
        omega
      obtain ⟨j, hj, heq⟩ := ih _ (wire.drop (min c (need + 1)))
        (fun x hx => h0 x (List.mem_cons_of_mem c hx)) hrest
      refine ⟨j + 1, by omega, ?_⟩
      rw [recv_exact_cons_ok c cs wire need _ _ _ hc heq]
      rw [show wire.take (min c (need + 1)) ++ (wire.drop (min c (need + 1))).take
          (need + 1 - min c (need + 1)) = wire.take (need + 1) from by
        rw [← take_add_eq]
        congr 1
        omega]
      rw [List.drop_drop]
      rw [show min c (need + 1) + (need + 1 - min c (need + 1)) = need + 1 from by omega]
      rfl

theorem send_exact_zero_mid : ∀ (pre cs buf : List Nat), (∀ x ∈ pre, x ≠ 0) →
    pre.sum < buf.length → send_exact (pre ++ 0 :: cs) buf = .connectionAborted := by
  intro pre
  induction pre with
  | nil =>
    intro cs buf _ hsum
    refine send_exact_zero cs buf ?_
    intro h
    subst h
    simp at hsum
  | cons c pre ih =>
    intro cs buf h0 hsum
    cases buf with
    | nil => simp at hsum
    | cons b bs =>
      have hc : ¬(c = 0) := h0 c (List.mem_cons_self c pre)
      refine send_exact_cons_err c (pre ++ 0 :: cs) b bs hc ?_
      refine ih cs _ (fun x hx => h0 x (List.mem_cons_of_mem c hx)) ?_
      simp only [List.length_drop]
      simp only [List.sum_cons] at hsum
      have hmin : min c (b :: bs).length ≤ c := Nat.min_le_left _ _
      omega

theorem recv_exact_zero_mid : ∀ (pre : List Nat) (cs wire : List Nat) (need : Nat),
    (∀ x ∈ pre, x ≠ 0) → pre.sum < need →
    recv_exact (pre ++ 0 :: cs) wire need = .unexpectedEof := by
  intro pre
  induction pre with
  | nil =>
    intro cs wire need _ hsum
    exact recv_exact_zero cs wire need (by simp at hsum; omega)
  | cons c pre ih =>
    intro cs wire need h0 hsum
    simp only [List.sum_cons] at hsum
    obtain ⟨k, rfl⟩ : ∃ k, need = k + 1 := ⟨need - 1, by omega⟩
    have hc : ¬(c = 0) := h0 c (List.mem_cons_self c pre)
    refine recv_exact_cons_err c (pre ++ 0 :: cs) wire k hc ?_
    refine ih cs _ _ (fun x hx => h0 x (List.mem_cons_of_mem c hx)) ?_
    have hmin : min c (k + 1) ≤ c := Nat.min_le_left _ _
    omega

/-! ### Framed transport, assembled -/

theorem toLE32_length (n : Nat) : (toLE32 n).length = 4 := rfl

theorem fromLE32_toLE32 (n : Nat) : fromLE32 (toLE32 n) = n % 2 ^ 32 := by
  simp only [toLE32, fromLE32]
  omega

theorem bodyBytes_length (m : Message) : (bodyBytes m).length = bodyLen m := rfl

theorem send_msg_wire_length (m : Message) : (send_msg_wire m).length = 4 + bodyLen m := by
  rw [send_msg_wire, List.length_append, toLE32_length, bodyBytes_length]

theorem send_msg_wire_take (m : Message) :
    (send_msg_wire m).take 4 = toLE32 (bodyLen m % 2 ^ 32) := by
  rw [send_msg_wire]
  exact List.take_left' (toLE32_length _)

theorem send_msg_wire_drop (m : Message) : (send_msg_wire m).drop 4 = bodyBytes m := by
  rw [send_msg_wire]
  exact List.drop_left' (toLE32_length _)

theorem send_msg_ones (m : Message) :
    send_msg (List.replicate (4 + bodyLen m) 1) m = .ok (send_msg_wire m) [] := by
  have h1 : send_exact (List.replicate (4 + bodyLen m) 1)
      (toLE32 (bodyLen m % 2 ^ 32)) =
      .ok (toLE32 (bodyLen m % 2 ^ 32)) (List.replicate (bodyLen m) 1) := by
    have h := send_exact_ones (toLE32 (bodyLen m % 2 ^ 32)) (4 + bodyLen m)
      (by rw [toLE32_length]; omega)
    rwa [toLE32_length, show 4 + bodyLen m - 4 = bodyLen m from by omega] at h
  have h2 : send_exact (List.replicate (bodyLen m) 1) (bodyBytes m) =
      .ok (bodyBytes m) [] := by
    have h := send_exact_ones (bodyBytes m) (bodyLen m) (by rw [bodyBytes_length])
    rwa [bodyBytes_length, Nat.sub_self, List.replicate_zero] at h
  simp only [send_msg, bodyBytes_length, h1, h2, send_msg_wire]

theorem send_msg_pos (m : Message) (counts : List Nat) (h0 : ∀ x ∈ counts, x ≠ 0)
    (hlen : 4 + bodyLen m ≤ counts.length) :
    ∃ cs', send_msg counts m = .ok (send_msg_wire m) cs' := by
  obtain ⟨j, hj, heq⟩ := send_exact_pos counts (toLE32 (bodyLen m % 2 ^ 32)) h0
    (by rw [toLE32_length]; omega)
  rw [toLE32_length] at hj
  obtain ⟨j2, hj2, heq2⟩ := send_exact_pos (counts.drop j) (bodyBytes m)
    (fun x hx => h0 x (List.mem_of_mem_drop hx))
    (by rw [List.length_drop, bodyBytes_length]; omega)
  refine ⟨(counts.drop j).drop j2, ?_⟩
  simp only [send_msg, bodyBytes_length, heq, heq2, send_msg_wire]

theorem recv_msg_ones (m : Message) (extra : List Nat) (hsize : bodyLen m < 2 ^ 32) :
    recv_msg (List.replicate (4 + bodyLen m) 1) (send_msg_wire m ++ extra) = (.ok m, extra) := by
  have htake : (send_msg_wire m ++ extra).take 4 = toLE32 (bodyLen m % 2 ^ 32) := by
    rw [send_msg_wire, List.append_assoc]
    exact List.take_left' (toLE32_length _)
  have hdrop : (send_msg_wire m ++ extra).drop 4 = bodyBytes m ++ extra := by
    rw [send_msg_wire, List.append_assoc]
    exact List.drop_left' (toLE32_length _)
  have h4 : recv_exact (List.replicate (4 + bodyLen m) 1) (send_msg_wire m ++ extra) 4 =
      .ok (toLE32 (bodyLen m % 2 ^ 32)) (List.replicate (bodyLen m) 1)
        (bodyBytes m ++ extra) := by
    have h := recv_exact_ones 4 (4 + bodyLen m) (send_msg_wire m ++ extra) (by omega)
    rwa [htake, hdrop, show 4 + bodyLen m - 4 = bodyLen m from by omega] at h
  have hfrom : fromLE32 (toLE32 (bodyLen m % 2 ^ 32)) = bodyLen m := by
    rw [fromLE32_toLE32]
    omega
  have hbody : recv_exact (List.replicate (bodyLen m) 1) (bodyBytes m ++ extra) (bodyLen m) =
      .ok (bodyBytes m) [] extra := by
    have h := recv_exact_ones (bodyLen m) (bodyLen m) (bodyBytes m ++ extra) (le_refl _)
    rwa [List.take_left' (bodyBytes_length m), List.drop_left' (bodyBytes_length m),
      Nat.sub_self, List.replicate_zero] at h
  have hutf : string_from_utf8 (bodyBytes m) = some (serde_json_to_string m) :=
    utf8_roundtrip _
  simp only [recv_msg, h4, hfrom, hbody, hutf, from_str_to_string]

theorem recv_msg_whole_wire (m : Message) (extra : List Nat) (hsize : bodyLen m < 2 ^ 32) :
    recv_msg_whole (send_msg_wire m ++ extra) = (.ok m, extra) := by
  have hlen : (send_msg_wire m ++ extra).length = 4 + bodyLen m + extra.length := by
    rw [List.length_append, send_msg_wire_length]
  have hc1 : ¬((send_msg_wire m ++ extra).length < 4) := by omega
  have htake : (send_msg_wire m ++ extra).take 4 = toLE32 (bodyLen m % 2 ^ 32) := by
    rw [send_msg_wire, List.append_assoc]
    exact List.take_left' (toLE32_length _)
  have hdrop : (send_msg_wire m ++ extra).drop 4 = bodyBytes m ++ extra := by
    rw [send_msg_wire, List.append_assoc]
    exact List.drop_left' (toLE32_length _)
  have hfrom : fromLE32 (toLE32 (bodyLen m % 2 ^ 32)) = bodyLen m := by
    rw [fromLE32_toLE32]
    omega
  have hc2 : ¬((bodyBytes m ++ extra).length < bodyLen m) := by
    rw [List.length_append, bodyBytes_length]
    omega
  have htake2 : (bodyBytes m ++ extra).take (bodyLen m) = bodyBytes m :=
    List.take_left' (bodyBytes_length m)
  have hdrop2 : (bodyBytes m ++ extra).drop (bodyLen m) = extra :=
    List.drop_left' (bodyBytes_length m)
  have hutf : string_from_utf8 (bodyBytes m) = some (serde_json_to_string m) :=
    utf8_roundtrip _
  simp only [recv_msg_whole, hc1, htake, hdrop, hfrom, hc2, htake2, hdrop2, hutf,
    from_str_to_string, reduceIte]

theorem recv_msg_ones_eq_whole (m : Message) (extra : List Nat) :
    recv_msg (List.replicate (4 + bodyLen m) 1) (send_msg_wire m ++ extra) =
      recv_msg_whole (send_msg_wire m ++ extra) := by
  have hlen : (send_msg_wire m ++ extra).length = 4 + bodyLen m + extra.length := by
    rw [List.length_append, send_msg_wire_length]
  have hc1 : ¬((send_msg_wire m ++ extra).length < 4) := by omega
  have htake : (send_msg_wire m ++ extra).take 4 = toLE32 (bodyLen m % 2 ^ 32) := by
    rw [send_msg_wire, List.append_assoc]
    exact List.take_left' (toLE32_length _)
  have hdrop : (send_msg_wire m ++ extra).drop 4 = bodyBytes m ++ extra := by
    rw [send_msg_wire, List.append_assoc]
    exact List.drop_left' (toLE32_length _)
  have h4 : recv_exact (List.replicate (4 + bodyLen m) 1) (send_msg_wire m ++ extra) 4 =
      .ok (toLE32 (bodyLen m % 2 ^ 32)) (List.replicate (bodyLen m) 1)
        (bodyBytes m ++ extra) := by
    have h := recv_exact_ones 4 (4 + bodyLen m) (send_msg_wire m ++ extra) (by omega)
    rwa [htake, hdrop, show 4 + bodyLen m - 4 = bodyLen m from by omega] at h
  have hfrom : fromLE32 (toLE32 (bodyLen m % 2 ^ 32)) = bodyLen m % 2 ^ 32 := by
    rw [fromLE32_toLE32]
    omega
  have hmodle : bodyLen m % 2 ^ 32 ≤ bodyLen m := Nat.mod_le _ _
  have hbody : recv_exact (List.replicate (bodyLen m) 1) (bodyBytes m ++ extra)
      (bodyLen m % 2 ^ 32) =
      .ok ((bodyBytes m ++ extra).take (bodyLen m % 2 ^ 32))
        (List.replicate (bodyLen m - bodyLen m % 2 ^ 32) 1)
        ((bodyBytes m ++ extra).drop (bodyLen m % 2 ^ 32)) :=
    recv_exact_ones _ _ _ hmodle
  have hc2 : ¬((bodyBytes m ++ extra).length < bodyLen m % 2 ^ 32) := by
    rw [List.length_append, bodyBytes_length]
    omega
  simp only [recv_msg, recv_msg_whole, h4, hfrom, hbody, hc1, htake, hdrop, hc2, reduceIte]

theorem recv_msg_pos (m : Message) (extra : List Nat) (counts : List Nat)
    (h0 : ∀ x ∈ counts, x ≠ 0) (hlen : 4 + bodyLen m ≤ counts.length)
    (hsize : bodyLen m < 2 ^ 32) :
    recv_msg counts (send_msg_wire m ++ extra) = (.ok m, extra) := by
  have htake : (send_msg_wire m ++ extra).take 4 = toLE32 (bodyLen m % 2 ^ 32) := by
    rw [send_msg_wire, List.append_assoc]
    exact List.take_left' (toLE32_length _)
  have hdrop : (send_msg_wire m ++ extra).drop 4 = bodyBytes m ++ extra := by
    rw [send_msg_wire, List.append_assoc]
    exact List.drop_left' (toLE32_length _)
  obtain ⟨j, hj, h1⟩ := recv_exact_pos counts 4 (send_msg_wire m ++ extra) h0 (by omega)
  rw [htake, hdrop] at h1
  have hfrom : fromLE32 (toLE32 (bodyLen m % 2 ^ 32)) = bodyLen m := by
    rw [fromLE32_toLE32]
    omega
  obtain ⟨j2, hj2, h2⟩ := recv_exact_pos (counts.drop j) (bodyLen m) (bodyBytes m ++ extra)
    (fun x hx => h0 x (List.mem_of_mem_drop hx))
    (by rw [List.length_drop]; omega)
  rw [List.take_left' (bodyBytes_length m), List.drop_left' (bodyBytes_length m)] at h2
  have hutf : string_from_utf8 (bodyBytes m) = some (serde_json_to_string m) :=
    utf8_roundtrip _
  simp only [recv_msg, h1, hfrom, h2, hutf, from_str_to_string]

/-! ### Body length of a message with a replicated ASCII name -/

theorem escapeChar_a : escapeChar 'a' = ['a'] := by decide

theorem escapeString_replicate_a (n : Nat) :
    escapeString (List.replicate n 'a') = List.replicate n 'a' := by
  induction n with
  | zero => rfl
  | succ n ih =>
    rw [List.replicate_succ, escapeString_cons, escapeChar_a, ih]
    rfl

theorem str_as_bytes_replicate_a (n : Nat) :
    str_as_bytes (List.replicate n 'a') = List.replicate n 97 := by
  induction n with
  | zero => rfl
  | succ n ih =>
    rw [List.replicate_succ, str_as_bytes_cons, ih]
    rfl

theorem bodyLen_hello_replicate (n : Nat) :
    bodyLen (.Hello (List.replicate n 'a')) = n + 21 := by
  rw [bodyLen, bodyBytes]
  rw [show serde_json_to_string (.Hello (List.replicate n 'a')) =
    ['\x7b', '"', 'H', 'e', 'l', 'l', 'o', '"', ':', '\x7b', '"', 'n', 'a', 'm', 'e', '"', ':']
      ++ ('"' :: (escapeString (List.replicate n 'a') ++ '"' :: ['\x7d', '\x7d'])) from rfl]
  have h2 : str_as_bytes ('"' :: (escapeString (List.replicate n 'a') ++ '"' :: ['\x7d', '\x7d']))
      = [34] ++ (List.replicate n 97 ++ [34, 125, 125]) := by
    rw [str_as_bytes_cons, str_as_bytes_append, escapeString_replicate_a,
      str_as_bytes_replicate_a]
    rfl
  rw [str_as_bytes_append, h2]
  rw [show (str_as_bytes
    ['\x7b', '"', 'H', 'e', 'l', 'l', 'o', '"', ':', '\x7b', '"', 'n', 'a', 'm', 'e', '"', ':']) =
    [123, 34, 72, 101, 108, 108, 111, 34, 58, 123, 34, 110, 97, 109, 101, 34, 58] from rfl]
  simp [List.length_append, List.length_replicate]

/-- A name long enough that the encoded body of `Hello` is exactly 2^32
bytes, making the `len as u32` cast in `send_msg` wrap around to 0. -/
def hugeName : List Char := List.replicate (2 ^ 32 - 21) 'a'

theorem bodyLen_huge : bodyLen (.Hello hugeName) = 2 ^ 32 := by
  rw [hugeName, bodyLen_hello_replicate]
  omega

/-- The three possible verdicts printed at the end of `main`. -/
inductive Outcome where
  | fair
  | win
  | lose
deriving DecidableEq

/-- The winner determination `match` at the end of `main` (`main.rs`),
over the pair (my action, opponent action). -/
def outcome : Action → Action → Outcome
  | .Rock, .Rock => .fair
  | .Paper, .Paper => .fair
  | .Scissor, .Scissor => .fair
  | .Rock, .Scissor => .win
  | .Paper, .Rock => .win
  | .Scissor, .Paper => .win
  | .Rock, .Paper => .lose
  | .Paper, .Scissor => .lose
  | .Scissor, .Rock => .lose

/-! ### Lemmas about the input loop -/

theorem my_turn_p (rest : List String) :
    my_turn ("p" :: rest) = ⟨some .Paper, [.Act .Paper], []⟩ := by
  simp +decide [my_turn]

theorem my_turn_s (rest : List String) :
    my_turn ("s" :: rest) = ⟨some .Scissor, [.Act .Scissor], []⟩ := by
  simp +decide [my_turn]

theorem my_turn_r (rest : List String) :
    my_turn ("r" :: rest) = ⟨some .Rock, [.Act .Rock], []⟩ := by
  simp +decide [my_turn]

theorem my_turn_q (rest : List String) :
    my_turn ("q" :: rest) = ⟨none, [], []⟩ := by
  simp +decide [my_turn]

theorem my_turn_unrecognized (line : String) (rest : List String)
    (h1 : line ≠ "p") (h2 : line ≠ "s") (h3 : line ≠ "r") (h4 : line ≠ "q") :
    my_turn (line :: rest) = ⟨(my_turn rest).result, (my_turn rest).sent,
      "Command not understood" :: (my_turn rest).printed⟩ := by
  simp only [my_turn]
  rw [if_neg h1, if_neg h2, if_neg h3, if_neg h4]

end RPS

namespace RPS

/-! ### Claim theorems -/

/-- C1: for every constructible `Message` value `m` — `Hello` with any name,
`Leave` with any name, `Act` with any of the three actions — deserializing
the bytes produced by the serialization inside `send_msg`
(`serde_json::to_string` + `as_bytes`) through the deserialization inside
`recv_msg` (`String::from_utf8` + `serde_json::from_str`) yields `m` again:
`decode(encode(m)) = m`. -/
theorem claim_C1_roundtrip (m : Message) : decode_body (bodyBytes m) = some m :=
  decode_encode m

/-- C2 counterexample: the claim says an `Action` is stored on the wire as a
single ordinal byte (0 for Rock).  In fact the encoded body of `Act(Rock)`
is the 14 UTF-8 bytes of the JSON text with the variant-name string
`"Rock"`; it is not the single byte `[0]`, and the ordinal byte 0 does not
occur anywhere in it. -/
theorem claim_C2_counterexample :
    bodyBytes (.Act .Rock) = [123, 34, 65, 99, 116, 34, 58, 34, 82, 111, 99, 107, 34, 125] ∧
    bodyBytes (.Act .Rock) ≠ [0] ∧
    ¬(0 ∈ bodyBytes (.Act .Rock)) := by
  decide

/-- C2 amended: in memory the `#[repr(u8)]` discriminants of `Action` are
0, 1, 2, but on the wire an `Action` is stored as its variant-name JSON
string (`"Rock"`, `"Paper"`, `"Scissor"`) inside the `Act` envelope;
decoding a JSON ordinal (0, 1, or 2, or any other number) in place of the
variant name is an error, as is any unknown name string. -/
theorem claim_C2_amended :
    (Action.discriminant .Rock = 0 ∧ Action.discriminant .Paper = 1 ∧
      Action.discriminant .Scissor = 2) ∧
    (serde_json_to_string (.Act .Rock) = "\x7b\"Act\":\"Rock\"\x7d".toList ∧
      serde_json_to_string (.Act .Paper) = "\x7b\"Act\":\"Paper\"\x7d".toList ∧
      serde_json_to_string (.Act .Scissor) = "\x7b\"Act\":\"Scissor\"\x7d".toList) ∧
    (decode_body (str_as_bytes "\x7b\"Act\":0\x7d".toList) = none ∧
      decode_body (str_as_bytes "\x7b\"Act\":1\x7d".toList) = none ∧
      decode_body (str_as_bytes "\x7b\"Act\":2\x7d".toList) = none ∧
      decode_body (str_as_bytes "\x7b\"Act\":\"Gun\"\x7d".toList) = none) := by
  decide

/-- C3 counterexample: the claim says `recv_msg` surfaces a malformed body
as a returned `DecodeError` value.  On the 5-byte input whose prefix
announces a 1-byte body `"x"` (not valid JSON), `recv_msg` instead hits the
`.unwrap()` on `serde_json::from_str` and aborts the process — modelled as
the `panicked` outcome, which is not a returned error value. -/
theorem claim_C3_counterexample :
    (recv_msg_whole [1, 0, 0, 0, 120]).1 = .panicked := by
  decide

/-- C3 amended: for every byte sequence that fills the length prefix and
body but whose body is not a well-formed encoding of any `Message`
(non-UTF-8 bytes, malformed JSON, invalid `Action` values, missing
fields), `recv_msg` panics on the `.unwrap()` calls — aborting the process
— rather than returning a `DecodeError` value; the malformed input is
never silently retried and never produces a message. -/
theorem claim_C3_amended (wire : List Nat) (h4 : 4 ≤ wire.length)
    (hlen : fromLE32 (wire.take 4) ≤ (wire.drop 4).length)
    (hdec : decode_body ((wire.drop 4).take (fromLE32 (wire.take 4))) = none) :
    (recv_msg_whole wire).1 = .panicked := by
  have hc1 : ¬(wire.length < 4) := by omega
  have hc2 : ¬((wire.drop 4).length < fromLE32 (wire.take 4)) := by omega
  rw [decode_body] at hdec
  cases hu : string_from_utf8 ((wire.drop 4).take (fromLE32 (wire.take 4))) with
  | none => simp only [recv_msg_whole, hc1, hc2, reduceIte, hu]
  | some t =>
    rw [hu, Option.some_bind] at hdec
    simp only [recv_msg_whole, hc1, hc2, reduceIte, hu, hdec]

/-- C3 witness: the amended claim applied to a concrete malformed frame
(a 2-byte body `"xy"`, which is valid UTF-8 but not valid JSON). -/
theorem claim_C3_witness :
    4 ≤ ([2, 0, 0, 0, 120, 121] : List Nat).length ∧
    (recv_msg_whole [2, 0, 0, 0, 120, 121]).1 = .panicked :=
  ⟨by decide, claim_C3_amended [2, 0, 0, 0, 120, 121] (by decide) (by decide) (by decide)⟩

/-- C4 counterexample: the claim says the first 4 bytes written always
equal the body length `N` in little-endian order.  For a `Hello` whose
name is 2^32 − 21 repetitions of `'a'`, the body is exactly 2^32 bytes
long, the `len as u32` cast wraps to 0, the prefix on the wire is
`[0,0,0,0]`, and no 4-byte little-endian value can equal `N = 2^32`. -/
theorem claim_C4_counterexample :
    bodyLen (.Hello hugeName) = 2 ^ 32 ∧
    (send_msg_wire (.Hello hugeName)).take 4 = [0, 0, 0, 0] ∧
    fromLE32 ((send_msg_wire (.Hello hugeName)).take 4) ≠ bodyLen (.Hello hugeName) := by
  have ht : (send_msg_wire (.Hello hugeName)).take 4 = [0, 0, 0, 0] := by
    rw [send_msg_wire_take, bodyLen_huge]
    norm_num [toLE32]
  refine ⟨bodyLen_huge, ht, ?_⟩
  rw [ht, bodyLen_huge]
  norm_num [fromLE32]

/-- C4 amended: for every `Message` whose encoded body length `N` fits in a
`u32` (`N` < 2^32 — forced by the truncating cast exhibited in the
counterexample), `send_msg` writes exactly `4 + N` bytes, the first 4 of
which are `N` in little-endian order followed by the body; and `recv_msg`
reads exactly 4 prefix bytes, interprets them as the little-endian length
`L`, reads exactly `L` body bytes (leaving any further bytes unread), and
decodes them back to the same message. -/
theorem claim_C4_amended (m : Message) (extra : List Nat) (hsize : bodyLen m < 2 ^ 32) :
    (send_msg_wire m).length = 4 + bodyLen m ∧
    (send_msg_wire m).take 4 = toLE32 (bodyLen m) ∧
    fromLE32 ((send_msg_wire m).take 4) = bodyLen m ∧
    (send_msg_wire m).drop 4 = bodyBytes m ∧
    recv_msg_whole (send_msg_wire m ++ extra) = (.ok m, extra) := by
  have hmod : bodyLen m % 2 ^ 32 = bodyLen m := Nat.mod_eq_of_lt hsize
  refine ⟨send_msg_wire_length m, ?_, ?_, send_msg_wire_drop m,
    recv_msg_whole_wire m extra hsize⟩
  · rw [send_msg_wire_take, hmod]
  · rw [send_msg_wire_take, fromLE32_toLE32]
    omega

/-- C4 witness: the amended claim applied to `Act(Rock)` (body length 14)
with one trailing byte left on the wire. -/
theorem claim_C4_witness :
    bodyLen (.Act .Rock) < 2 ^ 32 ∧
    recv_msg_whole (send_msg_wire (.Act .Rock) ++ [9]) = (.ok (.Act .Rock), [9]) :=
  ⟨by decide, (claim_C4_amended (.Act .Rock) [9] (by decide)).2.2.2.2⟩

end RPS

namespace RPS

/-- C5 counterexample: the claim says that for *every* message, with a
1-byte-per-call transfer primitive, `recv_msg` still succeeds.  For the
2^32-byte-body `Hello` message, the truncated length prefix makes
`recv_msg` read a 0-byte body and panic on JSON decoding — it does not
succeed (the whole-buffer mode fails identically). -/
theorem claim_C5_counterexample :
    (recv_msg (List.replicate (4 + bodyLen (.Hello hugeName)) 1)
      (send_msg_wire (.Hello hugeName) ++ [])).1 = .panicked := by
  rw [recv_msg_ones_eq_whole]
  rw [List.append_nil]
  have hc1 : ¬((send_msg_wire (.Hello hugeName)).length < 4) := by
    rw [send_msg_wire_length]
    omega
  have hfrom : fromLE32 ((send_msg_wire (.Hello hugeName)).take 4) = 0 := by
    rw [send_msg_wire_take, fromLE32_toLE32, bodyLen_huge]
    omega
  have hc2 : ¬(((send_msg_wire (.Hello hugeName)).drop 4).length < 0) := by omega
  have hu : string_from_utf8 (((send_msg_wire (.Hello hugeName)).drop 4).take 0) = some [] := by
    rw [List.take_zero]
    rfl
  have hp : serde_json_from_str [] = none := rfl
  simp only [recv_msg_whole, hc1, hfrom, hc2, reduceIte, hu, hp]

/-- C5 amended: partial-transfer robustness holds in the following form.
For every message `m`: (1) with a 1-byte-per-call primitive `send_msg`
succeeds after sending exactly the whole frame; (2) with any primitive
reporting only positive counts (and enough calls) `send_msg` succeeds with
the same frame; (3) with a 1-byte-per-call primitive `recv_msg` behaves
*identically* to whole-buffer transfers on that frame; (4) whenever the
encoded body fits in a `u32` (forced by the counterexample), the 1-byte
and whole-buffer modes both succeed and yield the same logical message;
and (5) under the same size bound, `recv_msg` also succeeds with the same
logical message (and the same unread suffix) under *any* primitive
reporting only positive counts with enough calls. -/
theorem claim_C5_amended (m : Message) (extra : List Nat) :
    send_msg (List.replicate (4 + bodyLen m) 1) m = .ok (send_msg_wire m) [] ∧
    (∀ counts : List Nat, (∀ x ∈ counts, x ≠ 0) → 4 + bodyLen m ≤ counts.length →
      ∃ cs', send_msg counts m = .ok (send_msg_wire m) cs') ∧
    recv_msg (List.replicate (4 + bodyLen m) 1) (send_msg_wire m ++ extra) =
      recv_msg_whole (send_msg_wire m ++ extra) ∧
    (bodyLen m < 2 ^ 32 →
      recv_msg (List.replicate (4 + bodyLen m) 1) (send_msg_wire m ++ extra) =
          (.ok m, extra) ∧
        recv_msg_whole (send_msg_wire m ++ extra) = (.ok m, extra)) ∧
    (∀ counts : List Nat, (∀ x ∈ counts, x ≠ 0) → 4 + bodyLen m ≤ counts.length →
      bodyLen m < 2 ^ 32 →
      recv_msg counts (send_msg_wire m ++ extra) = (.ok m, extra)) :=
  ⟨send_msg_ones m, fun counts h0 hl => send_msg_pos m counts h0 hl,
    recv_msg_ones_eq_whole m extra,
    fun hsize => ⟨recv_msg_ones m extra hsize, recv_msg_whole_wire m extra hsize⟩,
    fun counts h0 hl hsize => recv_msg_pos m extra counts h0 hl hsize⟩

/-- C5 witness: the amended claim applied to `Act(Paper)` (body length 15):
a positive-count oracle of twenty 1s for the send side, the 1-byte oracle
for the receive side, and a mixed positive-count oracle for the
general-count receive side. -/
theorem claim_C5_witness :
    (∃ cs', send_msg (List.replicate 20 1) (.Act .Paper) =
      .ok (send_msg_wire (.Act .Paper)) cs') ∧
    recv_msg (List.replicate (4 + bodyLen (.Act .Paper)) 1)
      (send_msg_wire (.Act .Paper) ++ []) = (.ok (.Act .Paper), []) ∧
    recv_msg [7, 1, 3, 1, 2, 5, 1, 1, 4, 1, 1, 1, 6, 1, 1, 2, 1, 1, 9]
      (send_msg_wire (.Act .Paper) ++ []) = (.ok (.Act .Paper), []) :=
  ⟨(claim_C5_amended (.Act .Paper) []).2.1 (List.replicate 20 1) (by decide) (by decide),
   ((claim_C5_amended (.Act .Paper) []).2.2.2.1 (by decide)).1,
   (claim_C5_amended (.Act .Paper) []).2.2.2.2
     [7, 1, 3, 1, 2, 5, 1, 1, 4, 1, 1, 1, 6, 1, 1, 2, 1, 1, 9]
     (by decide) (by decide) (by decide)⟩

/-- C6: a transfer primitive reporting 0 bytes while bytes remain
outstanding makes `send_exact` fail with `ConnectionAborted` and
`recv_exact` fail with `UnexpectedEof` — both immediately (a zero count at
the first call) and in the middle of a transfer (a zero count after any
run of positive counts that has not yet moved the whole buffer); a
zero-length transfer is never success and never retried. -/
theorem claim_C6_zero_closure :
    (∀ cs buf : List Nat, buf ≠ [] → send_exact (0 :: cs) buf = .connectionAborted) ∧
    (∀ pre cs buf : List Nat, (∀ x ∈ pre, x ≠ 0) → pre.sum < buf.length →
      send_exact (pre ++ 0 :: cs) buf = .connectionAborted) ∧
    (∀ (cs wire : List Nat) (need : Nat), need ≠ 0 →
      recv_exact (0 :: cs) wire need = .unexpectedEof) ∧
    (∀ (pre cs wire : List Nat) (need : Nat), (∀ x ∈ pre, x ≠ 0) → pre.sum < need →
      recv_exact (pre ++ 0 :: cs) wire need = .unexpectedEof) :=
  ⟨send_exact_zero, send_exact_zero_mid, recv_exact_zero, recv_exact_zero_mid⟩

/-- C6 witness: zero counts at the first call and mid-transfer, on concrete
buffers. -/
theorem claim_C6_witness :
    send_exact [0] [5] = .connectionAborted ∧
    send_exact [2, 0] [1, 2, 3] = .connectionAborted ∧
    recv_exact [0] [9] 1 = .unexpectedEof ∧
    recv_exact [3, 0] [1, 2, 3, 4] 4 = .unexpectedEof :=
  ⟨claim_C6_zero_closure.1 [] [5] (by decide),
   claim_C6_zero_closure.2.1 [2] [] [1, 2, 3] (by decide) (by decide),
   claim_C6_zero_closure.2.2.1 [] [9] 1 (by decide),
   claim_C6_zero_closure.2.2.2 [3] [] [1, 2, 3, 4] 4 (by decide) (by decide)⟩

/-- C7: for every input-line sequence in which `"q"` appears before any of
the recognized move lines `"r"`, `"p"`, `"s"`, the input loop `my_turn`
terminates successfully with `None` and sends no message of any kind to
the opponent. -/
theorem claim_C7_quit_sends_nothing (pre rest : List String)
    (h : ∀ x ∈ pre, x ≠ "r" ∧ x ≠ "p" ∧ x ≠ "s") :
    (my_turn (pre ++ "q" :: rest)).result = none ∧
    (my_turn (pre ++ "q" :: rest)).sent = [] := by
  induction pre with
  | nil =>
    rw [List.nil_append, my_turn_q]
    exact ⟨rfl, rfl⟩
  | cons x pre ih =>
    obtain ⟨hr, hp, hs⟩ := h x (List.mem_cons_self x pre)
    by_cases hq : x = "q"
    · subst hq
      rw [List.cons_append, my_turn_q]
      exact ⟨rfl, rfl⟩
    · rw [List.cons_append, my_turn_unrecognized x _ hp hs hr hq]
      exact ih (fun y hy => h y (List.mem_cons_of_mem x hy))

/-- C7 witness: an unrecognized line followed by `"q"` (with a move line
after it that is never reached). -/
theorem claim_C7_witness :
    (∀ x ∈ (["hello"] : List String), x ≠ "r" ∧ x ≠ "p" ∧ x ≠ "s") ∧
    (my_turn (["hello"] ++ "q" :: ["r"])).result = none ∧
    (my_turn (["hello"] ++ "q" :: ["r"])).sent = [] :=
  ⟨by decide, (claim_C7_quit_sends_nothing ["hello"] ["r"] (by decide)).1,
   (claim_C7_quit_sends_nothing ["hello"] ["r"] (by decide)).2⟩

/-- C8: a recognized move line (`"r"` ↦ Rock, `"p"` ↦ Paper, `"s"` ↦
Scissor) makes `my_turn` send exactly one `Act` message carrying that
action and return `Some` of the same action; every line outside
`{r, p, s, q}` prints the `Command not understood` diagnostic and
re-prompts, continuing with the remaining input. -/
theorem claim_C8_moves :
    (∀ rest : List String, my_turn ("r" :: rest) = ⟨some .Rock, [.Act .Rock], []⟩) ∧
    (∀ rest : List String, my_turn ("p" :: rest) = ⟨some .Paper, [.Act .Paper], []⟩) ∧
    (∀ rest : List String, my_turn ("s" :: rest) = ⟨some .Scissor, [.Act .Scissor], []⟩) ∧
    (∀ (line : String) (rest : List String),
      line ≠ "p" → line ≠ "s" → line ≠ "r" → line ≠ "q" →
      my_turn (line :: rest) = ⟨(my_turn rest).result, (my_turn rest).sent,
        "Command not understood" :: (my_turn rest).printed⟩) :=
  ⟨my_turn_r, my_turn_p, my_turn_s, my_turn_unrecognized⟩

/-- C8 witness: the rejected line `"x"` followed by `"p"` yields Paper, one
sent `Act` message, and one diagnostic. -/
theorem claim_C8_witness :
    my_turn ["x", "p"] = ⟨some .Paper, [.Act .Paper], ["Command not understood"]⟩ := by
  have h := claim_C8_moves.2.2.2 "x" ["p"] (by decide) (by decide) (by decide) (by decide)
  rw [h]
  decide

/-- C9: the outcome step of `main` is the fixed three-way comparison table,
total over all nine action pairs: equal actions tie; Rock beats Scissor,
Paper beats Rock, Scissor beats Paper (local win); the remaining three
pairs are local losses.  In particular local Rock versus remote Scissor is
a local win. -/
theorem claim_C9_outcome_table :
    (outcome .Rock .Rock = .fair ∧ outcome .Paper .Paper = .fair ∧
      outcome .Scissor .Scissor = .fair) ∧
    (outcome .Rock .Scissor = .win ∧ outcome .Paper .Rock = .win ∧
      outcome .Scissor .Paper = .win) ∧
    (outcome .Rock .Paper = .lose ∧ outcome .Paper .Scissor = .lose ∧
      outcome .Scissor .Rock = .lose) := by
  decide

/-- C10: `send_msg` converts the body length to the 4-byte prefix with a
truncating `as u32` cast: the wire always carries
`toLE32 (N mod 2^32)` followed by *all* `N` body bytes; when `N` < 2^32
the prefix equals `N`, and when `N` ≥ 2^32 the prefix equals `N mod 2^32`,
which differs from `N` — silently violating the framing invariant — while
the 1-byte-per-call send loop still succeeds after sending every byte. -/
theorem claim_C10_truncating_cast (m : Message) :
    send_msg_wire m = toLE32 (bodyLen m % 2 ^ 32) ++ bodyBytes m ∧
    fromLE32 ((send_msg_wire m).take 4) = bodyLen m % 2 ^ 32 ∧
    (bodyLen m < 2 ^ 32 → fromLE32 ((send_msg_wire m).take 4) = bodyLen m) ∧
    (2 ^ 32 ≤ bodyLen m → fromLE32 ((send_msg_wire m).take 4) ≠ bodyLen m) ∧
    send_msg (List.replicate (4 + bodyLen m) 1) m = .ok (send_msg_wire m) [] := by
  have h1 : fromLE32 ((send_msg_wire m).take 4) = bodyLen m % 2 ^ 32 := by
    rw [send_msg_wire_take, fromLE32_toLE32]
    omega
  exact ⟨rfl, h1, fun _ => by rw [h1]; omega, fun hs => by rw [h1]; omega,
    send_msg_ones m⟩

/-- C10 witness: the exact prefix for a small message (`Act(Scissor)`,
body length 17) and the wrapped, differing prefix for the 2^32-byte-body
`Hello`. -/
theorem claim_C10_witness :
    fromLE32 ((send_msg_wire (.Act .Scissor)).take 4) = bodyLen (.Act .Scissor) ∧
    fromLE32 ((send_msg_wire (.Hello hugeName)).take 4) ≠ bodyLen (.Hello hugeName) :=
  ⟨(claim_C10_truncating_cast (.Act .Scissor)).2.2.1 (by decide),
   (claim_C10_truncating_cast (.Hello hugeName)).2.2.2.1 (le_of_eq bodyLen_huge.symm)⟩

end RPS
